import Mathlib

/-!
Verification of the work-partitioning / lock-step round-scheduler core of
`KafkaBoatSimulator.py` (repository `Real-time-data-visualizations`).

The embedding below translates the Python source into Lean:
* rows are association lists of string fields (CSV `DictReader` rows);
* `BoatSimulationState` mirrors the Python class of the same name;
* wall-clock instants are abstract `Nat` values measured in milliseconds,
  so the 50 ms rate gate (`0.05` seconds in the source) becomes `50`;
* the worker's spin-wait (`while not can_send_now: sleep 0.001`) is modelled
  by advancing the abstract clock to the first instant the gate is open;
* the formatted UTC timestamp string is abstracted by `fmtTime` — no claim
  below depends on the concrete `%Y-%m-%dT%H:%M:%S.%f` format, only on the
  fact that both `time` and `timestamp` receive the same emission instant.
-/

/-- A CSV row as produced by `csv.DictReader`: ordered field/value pairs. -/
abbrev Row := List (String × String)

/-- Python dictionary assignment `row[k] = v`: update the existing key in
place (insertion order preserved) or append a fresh key at the end. -/
def setField : Row → String → String → Row
  | [], k, v => [(k, v)]
  | (k', v') :: rest, k, v =>
    if k' = k then (k, v) :: rest else (k', v') :: setField rest k v

/-- `f"BOAT_{boat_id:03d}"`: decimal digits zero-padded on the left to
width three (wider numbers print in full). -/
def zeroPad3 (n : Nat) : String :=
  let s := toString n
  if s.length < 3 then String.mk (List.replicate (3 - s.length) '0') ++ s else s

/-- The unique formatted id of a boat (`self.unique_boat_id`). -/
def formatBoatId (n : Nat) : String := "BOAT_" ++ zeroPad3 n

/-- `BoatSimulationState.load_data` (src lines 144-156): skip `start_row`
rows with `next(reader, None)` (missing rows are silently ignored), then
collect rows while the running index stays below `end_row - start_row`.
When `end_row ≤ start_row` Python's `i >= (end_row - start_row)` test fires
immediately, matching `Nat` truncated subtraction (`take 0`).  The file's
parsed data rows (after the header) are passed in as `file_rows`; the CSV
parsing itself is an excluded collaborator. -/
def load_data (file_rows : List Row) (start_row end_row : Nat) : List Row :=
  (file_rows.drop start_row).take (end_row - start_row)

/-- The Python class `BoatSimulationState` (src lines 127-189).  The
`file_path`, `original_boat` and `topic_name` string fields are never read
by any modelled operation and are omitted; `data_lines` holds the rows
produced by `load_data`. -/
structure BoatSimulationState where
  boat_id : Nat
  unique_boat_id : String
  start_row : Nat
  end_row : Nat
  data_lines : List Row
  current_index : Nat
  sent_count : Nat
  last_send_time : Nat
  completed : Bool
deriving Repr, DecidableEq

/-- `BoatSimulationState.__init__` (src lines 129-142): zero cursor and
counters, `completed = False`, rows loaded eagerly via `load_data`. -/
def mkBoatState (boat_id start_row end_row : Nat) (file_rows : List Row) :
    BoatSimulationState :=
  { boat_id := boat_id
    unique_boat_id := formatBoatId boat_id
    start_row := start_row
    end_row := end_row
    data_lines := load_data file_rows start_row end_row
    current_index := 0
    sent_count := 0
    last_send_time := 0
    completed := false }

namespace BoatSimulationState

/-- `has_next_message` (src lines 158-160). -/
def has_next_message (b : BoatSimulationState) : Bool :=
  decide (b.current_index < b.data_lines.length) && !b.completed

/-- The 50 ms minimum spacing between two emissions of one boat
(`0.05` seconds in `can_send_now`), in abstract milliseconds. -/
def rateIntervalMs : Nat := 50

/-- `can_send_now` (src lines 162-165): `now - last_send_time >= 0.05`.
Instants are non-negative and the clock is monotone, so `Nat` truncated
subtraction agrees with the Python float subtraction. -/
def can_send_now (b : BoatSimulationState) (now : Nat) : Bool :=
  decide (rateIntervalMs ≤ now - b.last_send_time)

/-- `get_next_message` (src lines 167-189): early `None` return when
`has_next_message()` is false; otherwise copy the current row, stamp
`time` and `timestamp` with the formatted instant `ts`, overwrite `boat`
with the unique id, advance the cursor, bump `sent_count`, record
`last_send_time = now`, and set `completed` once the cursor reaches the
end.  The inner `none` match arm is unreachable when `has_next_message`
holds (the cursor is then in bounds). -/
def get_next_message (b : BoatSimulationState) (ts : String) (now : Nat) :
    Option Row × BoatSimulationState :=
  if b.has_next_message then
    match b.data_lines.get? b.current_index with
    | some row0 =>
      let row := setField (setField (setField row0 "time" ts) "timestamp" ts)
        "boat" b.unique_boat_id
      let idx := b.current_index + 1
      (some row,
        { b with
            current_index := idx
            sent_count := b.sent_count + 1
            last_send_time := now
            completed := if b.data_lines.length ≤ idx then true else b.completed })
    | none => (none, b)
  else (none, b)

end BoatSimulationState

/-- `calculate_boats_per_thread` (src lines 77-93).  `N_BOATS // MAX_WORKER_THREADS`
is Python floor division; `int(base * 1.5)` truncates, which equals
`3 * base / 2` in `Nat` — exactly, because for `base ≥ 34` both the float
and the exact value are at least 51 and the subsequent cap at 50 hides any
float rounding, while for `base ≤ 33` the float product is exact. -/
def calculate_boats_per_thread (n_boats max_worker_threads : Nat) : Nat :=
  let base_boats_per_thread := max 1 (n_boats / max_worker_threads)
  let buffered :=
    if max_worker_threads < n_boats then 3 * base_boats_per_thread / 2
    else base_boats_per_thread
  let b1 := max 1 buffered
  let b2 := min b1 50
  max b2 1

/-- `clamp(v, lo, hi)` as written in the spec. -/
def clampNat (v lo hi : Nat) : Nat := max lo (min v hi)

/-- Modelled from the spec's formula (section 4.3), word for word:
`C = clamp(ceil(N/W * bufferFactor), 1, CAP)` with `bufferFactor = 1.5`
when `N > W` else `1.0` and `CAP = 50`; `ceil(3N/(2W)) = (3N + 2W - 1) / (2W)`
and `ceil(N/W) = (N + W - 1) / W` for `W ≥ 1`. -/
def specCapacity (n w : Nat) : Nat :=
  clampNat (if w < n then (3 * n + 2 * w - 1) / (2 * w) else (n + w - 1) / w) 1 50

/-- The spec's capacity formula amended to what the code computes: floor
division and truncation instead of exact-quotient ceiling, with the inner
`max(1, ·)` applied before the buffer factor. -/
def specCapacityAmended (n w : Nat) : Nat :=
  clampNat (if w < n then 3 * max 1 (n / w) / 2 else max 1 (n / w)) 1 50

/-!  The entity-state-machine operation sequences of claim C3: an entity is
constructed once and then only `get_next_message` mutates it
(`has_next_message` and `can_send_now` are pure observations). -/

/-- States of a `BoatSimulationState` reachable by the class's own
operations: construction followed by any number of `get_next_message`
calls with arbitrary timestamp/instant arguments. -/
inductive Reachable : BoatSimulationState → Prop where
  | init (boat_id start_row end_row : Nat) (file_rows : List Row) :
      Reachable (mkBoatState boat_id start_row end_row file_rows)
  | step (b : BoatSimulationState) (ts : String) (now : Nat) :
      Reachable b → Reachable (b.get_next_message ts now).2

/-- Iterated `get_next_message`, all calls stamped with the same abstract
instant (the instant is irrelevant to cursor/counter/flag evolution). -/
def iterateTake (ts : String) (now : Nat) : Nat → BoatSimulationState → BoatSimulationState
  | 0, b => b
  | n + 1, b => iterateTake ts now n (b.get_next_message ts now).2

/-!  ## Claim phase (src lines 201-208 and 271-277)

The main thread fills `boat_queue` once with `N` entity states; each of the
`W` workers then performs non-blocking `get_nowait` dequeues until it holds
`BOATS_PER_THREAD` entities or observes `queue.Empty`.  `queue.Queue` makes
each dequeue atomic, so an interleaved claim phase is a sequence of
single-dequeue steps; the queue never refills, so a worker that observes
`Empty` never misses later work.  Entities are identified by their position
in the enqueue order. -/

/-- The shared queue plus each worker's private `local_boats` list. -/
structure ClaimState where
  queue : List Nat
  batches : List (List Nat)
deriving Repr, DecidableEq

/-- One atomic claim step: worker `i`, still below the capacity `C`, pops
the head of the queue (`boat_queue.get_nowait()`) and appends it to its
`local_boats`. -/
inductive ClaimStep (C : Nat) : ClaimState → ClaimState → Prop where
  | dequeue (s : ClaimState) (e : Nat) (q : List Nat) (i : Nat)
      (hi : i < s.batches.length)
      (hq : s.queue = e :: q)
      (hcap : (s.batches.get ⟨i, hi⟩).length < C) :
      ClaimStep C s ⟨q, s.batches.set i (s.batches.get ⟨i, hi⟩ ++ [e])⟩

/-- Setup: `N` entities enqueued in order, `W` workers with empty batches. -/
def initClaim (N W : Nat) : ClaimState :=
  ⟨List.range N, List.replicate W []⟩

/-- The claim phase has ended: no worker can dequeue any more (each worker
either holds `C` entities or has observed the queue empty). -/
def ClaimDone (C : Nat) (s : ClaimState) : Prop :=
  ∀ s', ¬ ClaimStep C s s'

/-!  ## Round scheduler (src lines 217-251)

`worker_thread_simulation` computes `max_rounds` as the running maximum of
its boats' row counts and then, for each round, visits every claimed boat
in claim order: boats with no pending row are skipped outright
(`continue`, before the rate-gate wait); otherwise the worker spin-waits
on `can_send_now`, calls `get_next_message`, and publishes the row.  The
spin-wait is modelled by moving the abstract clock to the first instant
the gate opens; a skip leaves the clock untouched. -/

/-- Abstract stand-in for the wall-clock formatting of an instant. -/
def fmtTime (t : Nat) : String := toString t

/-- The instant at which the spin-wait
`while not boat_state.can_send_now(): time.sleep(0.001)` returns. -/
def gateTime (b : BoatSimulationState) (now : Nat) : Nat :=
  if b.can_send_now now then now else b.last_send_time + BoatSimulationState.rateIntervalMs

/-- What one visit of the round loop did to one boat: `skip` is the
`continue` on an exhausted boat, `emit` is a published record, `drop` is
the (dead) `if message_data:` false branch where nothing is produced. -/
inductive VisitEvent where
  | skip (id : String)
  | emit (id : String) (r : Row)
  | drop (id : String)
deriving Repr, DecidableEq

/-- The boat id an event belongs to. -/
def eventId : VisitEvent → String
  | .skip i => i
  | .emit i _ => i
  | .drop i => i

/-- Whether a record was published during the visit. -/
def isEmit : VisitEvent → Bool
  | .emit _ _ => true
  | _ => false

/-- One visit of the inner `for boat_state in local_boats` body. -/
def visit (b : BoatSimulationState) (now : Nat) :
    VisitEvent × BoatSimulationState × Nat :=
  if b.has_next_message then
    let t := gateTime b now
    match b.get_next_message (fmtTime t) t with
    | (some r, b') => (.emit b.unique_boat_id r, b', t)
    | (none, b') => (.drop b.unique_boat_id, b', t)
  else (.skip b.unique_boat_id, b, now)

/-- One full round: visit every boat of the batch once, in claim order,
threading the clock. -/
def runRound : List BoatSimulationState → Nat →
    List VisitEvent × List BoatSimulationState × Nat
  | [], now => ([], [], now)
  | b :: bs, now =>
    let (e, b', now') := visit b now
    let (es, bs', now'') := runRound bs now'
    (e :: es, b' :: bs', now'')

/-- `n` consecutive rounds, collecting one event list per round. -/
def runRounds (bs : List BoatSimulationState) (now : Nat) :
    Nat → List (List VisitEvent) × List BoatSimulationState × Nat
  | 0 => ([], bs, now)
  | n + 1 =>
    let (es, bs', now') := runRound bs now
    let (tr, bs'', now'') := runRounds bs' now' n
    (es :: tr, bs'', now'')

/-- `max_rounds`: the running-maximum fold of src lines 218-220. -/
def maxRounds (bs : List BoatSimulationState) : Nat :=
  bs.foldl (fun m b => max m b.data_lines.length) 0

/-- The whole round phase of `worker_thread_simulation`. -/
def workerRun (bs : List BoatSimulationState) (now : Nat) :
    List (List VisitEvent) × List BoatSimulationState × Nat :=
  runRounds bs now (maxRounds bs)

/-- Published records in one round (`total_messages_sent` increments). -/
def emitCount (es : List VisitEvent) : Nat := (es.filter isEmit).length

/-- The worker's returned `total_messages_sent`. -/
def totalSent (tr : List (List VisitEvent)) : Nat := (tr.map emitCount).sum

/-- The orchestrator's aggregation (src lines 292-298): each worker runs
its claimed batch and the per-worker returns are summed over
`as_completed` (summation order is irrelevant to the total). -/
def simulateAll (batches : List (List BoatSimulationState)) (now : Nat) : Nat :=
  (batches.map (fun bs => totalSent (workerRun bs now).1)).sum

/-!  ## Round scheduler with a fallible sink (claim C2)

`producer.produce(message)` has no surrounding `try`/`except`: an
exception escapes `worker_thread_simulation` and is only caught by the
orchestrator's `future.result()` loop.  `pub k` says whether the `k`-th
produce call of this worker succeeds; `.error ()` is the escaped
exception. -/

/-- One round with a fallible publish; carries (boats, clock, produce
attempt counter, `total_messages_sent`). -/
def runRoundExc (pub : Nat → Bool) :
    List BoatSimulationState → Nat → Nat → Nat →
    Except Unit (List BoatSimulationState × Nat × Nat × Nat)
  | [], now, k, tot => .ok ([], now, k, tot)
  | b :: bs, now, k, tot =>
    if b.has_next_message then
      let t := gateTime b now
      match b.get_next_message (fmtTime t) t with
      | (some _, b') =>
        if pub k then
          match runRoundExc pub bs t (k + 1) (tot + 1) with
          | .ok (bs', n', k', t') => .ok (b' :: bs', n', k', t')
          | .error e => .error e
        else .error ()
      | (none, b') =>
        match runRoundExc pub bs t k tot with
        | .ok (bs', n', k', t') => .ok (b' :: bs', n', k', t')
        | .error e => .error e
    else
      match runRoundExc pub bs now k tot with
      | .ok (bs', n', k', t') => .ok (b :: bs', n', k', t')
      | .error e => .error e

/-- `n` rounds with a fallible publish. -/
def runRoundsExc (pub : Nat → Bool) :
    Nat → List BoatSimulationState → Nat → Nat → Nat →
    Except Unit (List BoatSimulationState × Nat × Nat × Nat)
  | 0, bs, now, k, tot => .ok (bs, now, k, tot)
  | n + 1, bs, now, k, tot =>
    match runRoundExc pub bs now k tot with
    | .ok (bs', n', k', t') => runRoundsExc pub n bs' n' k' t'
    | .error e => .error e

/-- `worker_thread_simulation`'s round phase with a fallible publish. -/
def workerRunExc (pub : Nat → Bool) (bs : List BoatSimulationState) (now : Nat) :
    Except Unit (List BoatSimulationState × Nat × Nat × Nat) :=
  runRoundsExc pub (maxRounds bs) bs now 0 0

/-!  ## Concrete fixtures used by counterexamples and witnesses -/

/-- A sample CSV data row. -/
def demoRow : Row := [("boat", "ITA"), ("speed", "12"), ("time", "x"), ("timestamp", "y")]

/-- A second sample CSV data row. -/
def demoRow2 : Row := [("boat", "USA"), ("speed", "9"), ("time", "x"), ("timestamp", "y")]

/-- An entity whose window is empty (`end_row = start_row`), so
`load_data` yields no rows. -/
def emptyBoat : BoatSimulationState := mkBoatState 3 0 0 []

/-- An entity whose window `[0, 3)` asks for three rows of a one-row
dataset: `load_data` silently truncates to a single row. -/
def shortBoat : BoatSimulationState := mkBoatState 2 0 3 [demoRow]

/-- An entity holding exactly one row. -/
def oneRowBoat : BoatSimulationState := mkBoatState 1 0 1 [demoRow]

/-- An entity holding exactly two rows. -/
def twoRowBoat : BoatSimulationState := mkBoatState 2 0 2 [demoRow, demoRow2]

/-!  # Helper lemmas -/

theorem setField_lookup_self (r : Row) (k v : String) :
    (setField r k v).lookup k = some v := by
  induction r with
  | nil => simp [setField, List.lookup]
  | cons p rest ih =>
    obtain ⟨k', v'⟩ := p
    by_cases h : k' = k
    · simp [setField, h, List.lookup]
    · have hkk : (k == k') = false := beq_eq_false_iff_ne.mpr (Ne.symm h)
      simp [setField, h, List.lookup, hkk, ih]

theorem setField_lookup_other (r : Row) (k k' v : String) (h : k' ≠ k) :
    (setField r k v).lookup k' = r.lookup k' := by
  induction r with
  | nil =>
    have hkk : (k' == k) = false := beq_eq_false_iff_ne.mpr h
    simp [setField, List.lookup, hkk]
  | cons p rest ih =>
    obtain ⟨ka, va⟩ := p
    by_cases hk : ka = k
    · subst hk
      have hkk : (k' == ka) = false := beq_eq_false_iff_ne.mpr h
      simp [setField, List.lookup, hkk]
    · simp [setField, hk, List.lookup, ih]

namespace BoatSimulationState

theorem has_next_iff (b : BoatSimulationState) :
    b.has_next_message = true ↔
      (b.current_index < b.data_lines.length ∧ b.completed = false) := by
  simp [has_next_message]

theorem get_next_none (b : BoatSimulationState) (ts : String) (now : Nat)
    (h : b.has_next_message = false) : b.get_next_message ts now = (none, b) := by
  simp [get_next_message, h]

theorem get_next_some (b : BoatSimulationState) (ts : String) (now : Nat)
    (h : b.has_next_message = true) :
    ∃ row0, b.data_lines.get? b.current_index = some row0 ∧
      b.get_next_message ts now =
        (some (setField (setField (setField row0 "time" ts) "timestamp" ts)
            "boat" b.unique_boat_id),
          { b with
              current_index := b.current_index + 1
              sent_count := b.sent_count + 1
              last_send_time := now
              completed :=
                if b.data_lines.length ≤ b.current_index + 1 then true
                else b.completed }) := by
  obtain ⟨hlt, -⟩ := (has_next_iff b).mp h
  refine ⟨b.data_lines.get ⟨b.current_index, hlt⟩, List.get?_eq_get hlt, ?_⟩
  simp [get_next_message, h, List.get?_eq_get hlt, List.getElem?_eq_getElem hlt,
    List.get_eq_getElem]

end BoatSimulationState

/-!  # Claim C1 — per-worker claim capacity -/

/-- C1 counterexample: at `N = 3`, `W = 2` the spec's formula
`clamp(ceil(N/W * 1.5), 1, 50)` yields 3, but the code's
`calculate_boats_per_thread` yields 1, so the claimed equality fails. -/
theorem c1_counterexample :
    calculate_boats_per_thread 3 2 = 1 ∧ specCapacity 3 2 = 3 ∧
      calculate_boats_per_thread 3 2 ≠ specCapacity 3 2 := by
  refine ⟨rfl, rfl, by decide⟩

/-- C1 (amended): for every `N ≥ 1` and `W ≥ 1` the per-worker capacity
equals `clamp(int(max(1, N floordiv W) * bufferFactor), 1, 50)` — the
spec's formula with floor division and truncation in place of the exact
quotient and its ceiling. -/
theorem c1_capacity_amended (n w : Nat) (_hn : 1 ≤ n) (_hw : 1 ≤ w) :
    calculate_boats_per_thread n w = specCapacityAmended n w := by
  simp only [calculate_boats_per_thread, specCapacityAmended, clampNat]
  obtain ⟨b, hb⟩ : ∃ b, max 1 (n / w) = b := ⟨_, rfl⟩
  rw [hb]
  have hb1 : 1 ≤ b := hb ▸ Nat.le_max_left 1 (n / w)
  by_cases h : w < n
  · simp only [if_pos h]
    omega
  · simp only [if_neg h]
    omega

/-- C1 witness: the amended capacity formula evaluated at the source's
default configuration `N = 10000`, `W = 20`. -/
theorem c1_capacity_amended_witness :
    calculate_boats_per_thread 10000 20 = specCapacityAmended 10000 20 :=
  c1_capacity_amended 10000 20 (by decide) (by decide)

/-!  # Claim C3 — completion-flag invariant -/

/-- C3 counterexample: an entity constructed over an empty row slice has
`cursor = len(rows) = 0` but its completion flag is `false`, refuting the
claimed "iff ... including the case of an empty row sequence". -/
theorem c3_counterexample :
    Reachable emptyBoat ∧
      emptyBoat.current_index = emptyBoat.data_lines.length ∧
      emptyBoat.completed = false ∧
      ¬(emptyBoat.completed = true ↔
        emptyBoat.current_index = emptyBoat.data_lines.length) :=
  ⟨Reachable.init 3 0 0 [], by decide, by decide, by decide⟩

/-- C3 (amended): in every state reachable by the entity state machine's
own operations, the cursor never exceeds `len(rows)` and the completion
flag is true iff the cursor equals `len(rows)` AND the row sequence is
non-empty (an entity with an empty slice is never marked completed). -/
theorem c3_completed_iff (b : BoatSimulationState) (h : Reachable b) :
    b.current_index ≤ b.data_lines.length ∧
      (b.completed = true ↔
        (b.current_index = b.data_lines.length ∧ 0 < b.data_lines.length)) := by
  induction h with
  | init bid s e rows =>
    simp only [mkBoatState]
    constructor
    · exact Nat.zero_le _
    · constructor
      · intro hfalse
        exact absurd hfalse (by simp)
      · rintro ⟨h1, h2⟩
        exact absurd h1 (by omega)
  | step b ts now hb ih =>
    cases hnb : b.has_next_message with
    | false =>
      rw [BoatSimulationState.get_next_none b ts now hnb]
      exact ih
    | true =>
      obtain ⟨hlt, hcomp⟩ := (BoatSimulationState.has_next_iff b).mp hnb
      obtain ⟨row0, hrow, heq⟩ := BoatSimulationState.get_next_some b ts now hnb
      rw [heq]
      dsimp only
      constructor
      · omega
      · by_cases hle : b.data_lines.length ≤ b.current_index + 1
        · simp only [if_pos hle]
          constructor
          · intro
            omega
          · intro
            trivial
        · simp only [if_neg hle, hcomp]
          constructor
          · intro hfalse
            exact absurd hfalse (by simp)
          · intro hc
            omega

/-- C3 witness: the amended invariant instantiated at a freshly
constructed one-row entity. -/
theorem c3_completed_iff_witness :
    (mkBoatState 9 0 1 [demoRow]).current_index ≤
        (mkBoatState 9 0 1 [demoRow]).data_lines.length ∧
      ((mkBoatState 9 0 1 [demoRow]).completed = true ↔
        ((mkBoatState 9 0 1 [demoRow]).current_index =
            (mkBoatState 9 0 1 [demoRow]).data_lines.length ∧
          0 < (mkBoatState 9 0 1 [demoRow]).data_lines.length)) :=
  c3_completed_iff (mkBoatState 9 0 1 [demoRow]) (Reachable.init 9 0 1 [demoRow])

/-!  # Claim C7 — takeNext is a no-op without pending rows -/

/-- C7: when `has_next_message()` is false, `get_next_message` returns
`None` and leaves cursor, emitted count, last-emission instant and
completion flag (indeed the whole state) unchanged. -/
theorem c7_take_next_noop (b : BoatSimulationState) (ts : String) (now : Nat)
    (h : b.has_next_message = false) :
    (b.get_next_message ts now).1 = none ∧
      (b.get_next_message ts now).2.current_index = b.current_index ∧
      (b.get_next_message ts now).2.sent_count = b.sent_count ∧
      (b.get_next_message ts now).2.last_send_time = b.last_send_time ∧
      (b.get_next_message ts now).2.completed = b.completed ∧
      (b.get_next_message ts now).2 = b := by
  rw [BoatSimulationState.get_next_none b ts now h]
  exact ⟨rfl, rfl, rfl, rfl, rfl, rfl⟩

/-- C7 witness: the no-op frame condition at a concrete exhausted entity
(the empty-window boat, whose `has_next_message` is false). -/
theorem c7_take_next_noop_witness :
    (emptyBoat.get_next_message "t" 5).1 = none ∧
      (emptyBoat.get_next_message "t" 5).2.current_index = emptyBoat.current_index ∧
      (emptyBoat.get_next_message "t" 5).2.sent_count = emptyBoat.sent_count ∧
      (emptyBoat.get_next_message "t" 5).2.last_send_time = emptyBoat.last_send_time ∧
      (emptyBoat.get_next_message "t" 5).2.completed = emptyBoat.completed ∧
      (emptyBoat.get_next_message "t" 5).2 = emptyBoat :=
  c7_take_next_noop emptyBoat "t" 5 (by decide)

/-!  # Claim C10 — silent window truncation at dataset end -/

/-- C10: constructing an entity whose window `[start_row, end_row)` asks
for more rows than the dataset holds succeeds (the model is total because
the source's skip loop uses `next(reader, None)` and the copy loop simply
breaks) and loads exactly
`min(end_row - start_row, max(0, rows_in_file - start_row))` rows. -/
theorem c10_truncated_load (boat_id start_row end_row : Nat) (file_rows : List Row)
    (hse : start_row ≤ end_row) (hshort : file_rows.length < end_row) :
    ((mkBoatState boat_id start_row end_row file_rows).data_lines.length : Int) =
      min ((end_row : Int) - (start_row : Int))
        (max 0 ((file_rows.length : Int) - (start_row : Int))) := by
  have h : (mkBoatState boat_id start_row end_row file_rows).data_lines.length =
      min (end_row - start_row) (file_rows.length - start_row) := by
    simp [mkBoatState, load_data]
  rw [h]
  omega

/-- C10 witness: a window `[1, 5)` over a three-row dataset loads
`min(4, max(0, 2)) = 2` rows. -/
theorem c10_truncated_load_witness :
    ((mkBoatState 7 1 5 [demoRow, demoRow2, demoRow]).data_lines.length : Int) =
      min ((5 : Int) - (1 : Int)) (max 0 ((([demoRow, demoRow2, demoRow] : List Row).length : Int) - (1 : Int))) :=
  c10_truncated_load 7 1 5 [demoRow, demoRow2, demoRow] (by decide) (by decide)

/-!  # Claim C6 — what takeNext returns and updates -/

/-- C6: with a pending row, `get_next_message` returns a copy of the
current row whose `boat` field is overwritten with the entity's unique id
and whose `time` and `timestamp` fields both carry the emission instant,
every other field kept verbatim; the cursor advances by one, the emitted
count by one, `last_send_time` becomes `now`, the row slice is untouched,
and the completion flag becomes true exactly when the new cursor reaches
the slice length. -/
theorem c6_take_next_stamps (b : BoatSimulationState) (ts : String) (now : Nat)
    (row0 : Row) (h : b.has_next_message = true)
    (hrow : b.data_lines.get? b.current_index = some row0) :
    ∃ r b', b.get_next_message ts now = (some r, b') ∧
      r.lookup "time" = some ts ∧
      r.lookup "timestamp" = some ts ∧
      r.lookup "boat" = some b.unique_boat_id ∧
      (∀ k, k ≠ "time" → k ≠ "timestamp" → k ≠ "boat" → r.lookup k = row0.lookup k) ∧
      b'.current_index = b.current_index + 1 ∧
      b'.sent_count = b.sent_count + 1 ∧
      b'.last_send_time = now ∧
      b'.data_lines = b.data_lines ∧
      (b'.completed = true ↔ b.current_index + 1 = b.data_lines.length) := by
  obtain ⟨hlt, hcomp⟩ := (BoatSimulationState.has_next_iff b).mp h
  obtain ⟨row0', hrow', heq⟩ := BoatSimulationState.get_next_some b ts now h
  rw [hrow] at hrow'
  injection hrow' with hr
  subst hr
  refine ⟨_, _, heq, ?_, ?_, ?_, ?_, rfl, rfl, rfl, rfl, ?_⟩
  · rw [setField_lookup_other _ _ _ _ (by decide),
      setField_lookup_other _ _ _ _ (by decide)]
    exact setField_lookup_self _ _ _
  · rw [setField_lookup_other _ _ _ _ (by decide)]
    exact setField_lookup_self _ _ _
  · exact setField_lookup_self _ _ _
  · intro k h1 h2 h3
    rw [setField_lookup_other _ _ _ _ h3, setField_lookup_other _ _ _ _ h2,
      setField_lookup_other _ _ _ _ h1]
  · dsimp only
    by_cases hle : b.data_lines.length ≤ b.current_index + 1
    · simp only [if_pos hle]
      constructor
      · intro
        omega
      · intro
        trivial
    · simp only [if_neg hle, hcomp]
      constructor
      · intro hfalse
        exact absurd hfalse (by simp)
      · intro hc
        omega

/-- C6 witness: the stamping contract at a concrete one-row entity. -/
theorem c6_take_next_stamps_witness :
    ∃ r b', (mkBoatState 5 0 1 [demoRow]).get_next_message "TS" 42 = (some r, b') ∧
      r.lookup "time" = some "TS" ∧
      r.lookup "timestamp" = some "TS" ∧
      r.lookup "boat" = some (mkBoatState 5 0 1 [demoRow]).unique_boat_id ∧
      (∀ k, k ≠ "time" → k ≠ "timestamp" → k ≠ "boat" →
        r.lookup k = demoRow.lookup k) ∧
      b'.current_index = (mkBoatState 5 0 1 [demoRow]).current_index + 1 ∧
      b'.sent_count = (mkBoatState 5 0 1 [demoRow]).sent_count + 1 ∧
      b'.last_send_time = 42 ∧
      b'.data_lines = (mkBoatState 5 0 1 [demoRow]).data_lines ∧
      (b'.completed = true ↔
        (mkBoatState 5 0 1 [demoRow]).current_index + 1 =
          (mkBoatState 5 0 1 [demoRow]).data_lines.length) :=
  c6_take_next_stamps (mkBoatState 5 0 1 [demoRow]) "TS" 42 demoRow (by decide) (by decide)

/-!  # Claim C9 — emitted count at completion -/

/-- Running an entity with `n` pending rows for `n` takes: the emitted
count grows by exactly `n` and, when `n > 0`, the flag ends completed. -/
theorem iterate_take_completes (ts : String) (now : Nat) :
    ∀ (n : Nat) (b : BoatSimulationState),
      b.current_index + n = b.data_lines.length → b.completed = false →
      (iterateTake ts now n b).sent_count = b.sent_count + n ∧
        (0 < n → (iterateTake ts now n b).completed = true) := by
  intro n
  induction n with
  | zero =>
    intro b h hc
    exact ⟨rfl, by omega⟩
  | succ n ih =>
    intro b h hc
    have hlt : b.current_index < b.data_lines.length := by omega
    have hnb : b.has_next_message = true :=
      (BoatSimulationState.has_next_iff b).mpr ⟨hlt, hc⟩
    obtain ⟨row0, hrow, heq⟩ := BoatSimulationState.get_next_some b ts now hnb
    simp only [iterateTake]
    rw [heq]
    by_cases hend : b.data_lines.length ≤ b.current_index + 1
    · have hn0 : n = 0 := by omega
      subst hn0
      simp [iterateTake, hend]
    · have hih := ih
        { b with
            current_index := b.current_index + 1
            sent_count := b.sent_count + 1
            last_send_time := now
            completed := if b.data_lines.length ≤ b.current_index + 1 then true
              else b.completed }
        (by simp only [if_neg hend]; omega) (by simp only [if_neg hend]; exact hc)
      simp only [if_neg hend] at hih ⊢
      exact ⟨by rw [hih.1]; omega, fun _ => hih.2 (by omega)⟩

/-- C9 counterexample: an entity with window `[0, 3)` over a one-row
dataset runs to completion after a single take — the completion flag is
set — yet its emitted count is 1, not `end_row - start_row = 3`. -/
theorem c9_counterexample :
    (iterateTake "t" 9 1 shortBoat).completed = true ∧
      (iterateTake "t" 9 1 shortBoat).sent_count = 1 ∧
      shortBoat.end_row - shortBoat.start_row = 3 ∧
      (iterateTake "t" 9 1 shortBoat).sent_count ≠
        shortBoat.end_row - shortBoat.start_row := by
  refine ⟨by decide, by decide, by decide, by decide⟩

/-- C9 (amended): an entity whose dataset holds at least `end_row` rows
(so the window is not truncated) runs to completion with emitted count
exactly the window size `end_row - start_row`; in general the count at
completion equals the number of loaded rows. -/
theorem c9_emitted_equals_window (boat_id start_row end_row : Nat)
    (file_rows : List Row) (ts : String) (now : Nat)
    (hse : start_row < end_row) (hlen : end_row ≤ file_rows.length) :
    (iterateTake ts now (end_row - start_row)
        (mkBoatState boat_id start_row end_row file_rows)).completed = true ∧
      (iterateTake ts now (end_row - start_row)
        (mkBoatState boat_id start_row end_row file_rows)).sent_count =
        end_row - start_row := by
  have hdl : (mkBoatState boat_id start_row end_row file_rows).data_lines.length =
      end_row - start_row := by
    simp [mkBoatState, load_data]
    omega
  have h := iterate_take_completes ts now (end_row - start_row)
    (mkBoatState boat_id start_row end_row file_rows)
    (by rw [hdl]; simp [mkBoatState]) rfl
  exact ⟨h.2 (by omega), by rw [h.1]; simp [mkBoatState]⟩

/-- C9 witness: a `[1, 3)` window over a three-row dataset completes with
exactly two emitted records. -/
theorem c9_emitted_equals_window_witness :
    (iterateTake "u" 11 (3 - 1) (mkBoatState 4 1 3 [demoRow, demoRow2, demoRow])).completed = true ∧
      (iterateTake "u" 11 (3 - 1) (mkBoatState 4 1 3 [demoRow, demoRow2, demoRow])).sent_count = 3 - 1 :=
  c9_emitted_equals_window 4 1 3 [demoRow, demoRow2, demoRow] "u" 11 (by decide) (by decide)

/-!  # Worker-model helper lemmas -/

theorem foldl_max_le_init (bs : List BoatSimulationState) (a : Nat) :
    a ≤ bs.foldl (fun m b => max m b.data_lines.length) a := by
  induction bs generalizing a with
  | nil => exact le_refl a
  | cons b rest ih => exact le_trans (Nat.le_max_left _ _) (ih _)

theorem mem_le_foldl_max (bs : List BoatSimulationState) :
    ∀ (a : Nat) (b : BoatSimulationState), b ∈ bs →
      b.data_lines.length ≤ bs.foldl (fun m b => max m b.data_lines.length) a := by
  induction bs with
  | nil =>
    intro a b hb
    cases hb
  | cons c rest ih =>
    intro a b hb
    cases hb with
    | head => exact le_trans (Nat.le_max_right _ _) (foldl_max_le_init rest _)
    | tail _ h => exact ih _ b h

theorem foldl_max_mem (bs : List BoatSimulationState) (a : Nat) :
    bs.foldl (fun m b => max m b.data_lines.length) a = a ∨
      ∃ b ∈ bs, bs.foldl (fun m b => max m b.data_lines.length) a
        = b.data_lines.length := by
  induction bs generalizing a with
  | nil => exact Or.inl rfl
  | cons c rest ih =>
    rcases ih (max a c.data_lines.length) with h | ⟨b, hb, hEq⟩
    · by_cases hac : a ≤ c.data_lines.length
      · refine Or.inr ⟨c, List.mem_cons_self c rest, ?_⟩
        rw [List.foldl_cons, h, Nat.max_eq_right hac]
      · refine Or.inl ?_
        rw [List.foldl_cons, h, Nat.max_eq_left (by omega)]
    · exact Or.inr ⟨b, List.mem_cons_of_mem c hb, hEq⟩

/-- Every boat's row count bounds from below the worker's `max_rounds`. -/
theorem maxRounds_ge (bs : List BoatSimulationState) (b : BoatSimulationState)
    (hb : b ∈ bs) : b.data_lines.length ≤ maxRounds bs :=
  mem_le_foldl_max bs 0 b hb

/-- For a non-empty batch, `max_rounds` is attained by some boat. -/
theorem maxRounds_attained (bs : List BoatSimulationState) (hbs : bs ≠ []) :
    ∃ b ∈ bs, maxRounds bs = b.data_lines.length := by
  rcases foldl_max_mem bs 0 with h | h
  · match bs, hbs with
    | c :: rest, _ =>
      refine ⟨c, List.mem_cons_self c rest, ?_⟩
      have hc : c.data_lines.length ≤ maxRounds (c :: rest) :=
        maxRounds_ge _ c (List.mem_cons_self c rest)
      have h0 : maxRounds (c :: rest) = 0 := h
      omega
  · exact h

theorem get_next_snd_none (b : BoatSimulationState) (ts : String) (now : Nat)
    (b' : BoatSimulationState) (h : b.get_next_message ts now = (none, b')) :
    b' = b := by
  by_cases hnb : b.has_next_message = true
  · obtain ⟨row0, hrow, heq⟩ := BoatSimulationState.get_next_some b ts now hnb
    rw [heq] at h
    cases h
  · rw [BoatSimulationState.get_next_none b ts now
      (Bool.not_eq_true _ ▸ hnb)] at h
    exact (Prod.mk.injEq _ _ _ _ ▸ h).2.symm

/-!  # Claim C2 — effect of a publish failure -/

/-- With a pending boat in the batch, the first attempted publish of a
round happens, so an always-failing sink makes the round raise. -/
theorem runRoundExc_fail (bs : List BoatSimulationState) (now k tot : Nat)
    (h : ∃ b ∈ bs, b.has_next_message = true) :
    runRoundExc (fun _ => false) bs now k tot = .error () := by
  induction bs generalizing now k tot with
  | nil =>
    obtain ⟨b, hb, -⟩ := h
    cases hb
  | cons c rest ih =>
    cases hc : c.has_next_message with
    | true =>
      obtain ⟨row0, hrow, heq⟩ := BoatSimulationState.get_next_some c
        (fmtTime (gateTime c now)) (gateTime c now) hc
      simp [runRoundExc, hc, heq]
    | false =>
      obtain ⟨b, hb, hbn⟩ := h
      have hbcs : b ∈ rest := by
        cases hb with
        | head => rw [hc] at hbn; cases hbn
        | tail _ htl => exact htl
      simp [runRoundExc, hc, ih now k tot ⟨b, hbcs, hbn⟩]

/-- C2 counterexample: with a two-row boat claimed and the very first
publish failing, the worker's round phase raises (`error`) instead of
logging and continuing — yet the same run with a healthy sink finishes
(`ok`).  The claim's "a single publish failure never aborts the worker" is
false of the code, which has no `try`/`except` around `producer.produce`. -/
theorem c2_counterexample :
    workerRunExc (fun _ => false) [twoRowBoat] 100 = .error () ∧
      ∃ res, workerRunExc (fun _ => true) [twoRowBoat] 100 = .ok res := by
  exact ⟨rfl, ⟨_, rfl⟩⟩

/-- C2 (amended): a publish failure aborts the worker — whenever the batch
still holds a pending boat and every publish attempt fails, the worker's
round phase terminates with the escaped exception (caught and logged only
by the orchestrator's `future.result()` loop, the worker contributing no
message count). -/
theorem c2_publish_failure_aborts (bs : List BoatSimulationState) (now : Nat)
    (h : ∃ b ∈ bs, b.has_next_message = true) :
    workerRunExc (fun _ => false) bs now = .error () := by
  obtain ⟨b, hb, hbn⟩ := h
  have hlen : 1 ≤ b.data_lines.length := by
    have := (BoatSimulationState.has_next_iff b).mp hbn
    omega
  have hmr : 1 ≤ maxRounds bs := le_trans hlen (maxRounds_ge bs b hb)
  obtain ⟨m, hm⟩ : ∃ m, maxRounds bs = m + 1 := ⟨maxRounds bs - 1, by omega⟩
  unfold workerRunExc
  rw [hm]
  simp [runRoundsExc, runRoundExc_fail bs now 0 0 ⟨b, hb, hbn⟩]

/-- C2 witness: the abort at a concrete one-row batch. -/
theorem c2_publish_failure_aborts_witness :
    workerRunExc (fun _ => false) [oneRowBoat] 200 = .error () :=
  c2_publish_failure_aborts [oneRowBoat] 200 ⟨oneRowBoat, by decide, by decide⟩

/-!  # Claim-phase helper lemmas -/

theorem sum_map_set_f (f : List Nat → Nat) :
    ∀ (l : List (List Nat)) (i : Nat) (x c : List Nat), l.get? i = some c →
      ((l.set i x).map f).sum + f c = (l.map f).sum + f x := by
  intro l
  induction l with
  | nil =>
    intro i x c hc
    cases hc
  | cons hd tl ih =>
    intro i x c hc
    cases i with
    | zero =>
      injection hc with hc'
      subst hc'
      simp [List.set]
      omega
    | succ i =>
      have hrec := ih i x c hc
      simp [List.set] at hrec ⊢
      omega

theorem sum_len_le (l : List (List Nat)) (C : Nat) (h : ∀ b ∈ l, b.length ≤ C) :
    (l.map List.length).sum ≤ l.length * C := by
  induction l with
  | nil => simp
  | cons hd tl ih =>
    have h1 := h hd (List.mem_cons_self hd tl)
    have h2 := ih (fun b hb => h b (List.mem_cons_of_mem hd hb))
    simp only [List.map_cons, List.sum_cons, List.length_cons, Nat.succ_mul]
    omega

theorem sum_len_eq (l : List (List Nat)) (C : Nat) (h : ∀ b ∈ l, b.length = C) :
    (l.map List.length).sum = l.length * C := by
  induction l with
  | nil => simp
  | cons hd tl ih =>
    have h1 := h hd (List.mem_cons_self hd tl)
    have h2 := ih (fun b hb => h b (List.mem_cons_of_mem hd hb))
    simp only [List.map_cons, List.sum_cons, List.length_cons, Nat.succ_mul]
    omega

/-- One dequeue step preserves the claim-phase invariant. -/
theorem claim_step_inv (N W C : Nat) (t u : ClaimState) (hstep : ClaimStep C t u)
    (hW : t.batches.length = W)
    (hcap : ∀ b ∈ t.batches, b.length ≤ C)
    (hcount : ∀ e, t.queue.count e + (t.batches.map (List.count e)).sum
        = (List.range N).count e)
    (htot : t.queue.length + (t.batches.map List.length).sum = N) :
    u.batches.length = W ∧
    (∀ b ∈ u.batches, b.length ≤ C) ∧
    (∀ e, u.queue.count e + (u.batches.map (List.count e)).sum
        = (List.range N).count e) ∧
    u.queue.length + (u.batches.map List.length).sum = N := by
  cases hstep with
  | dequeue e q i hi hq hcap' =>
    have hget : t.batches.get? i = some (t.batches.get ⟨i, hi⟩) :=
      List.get?_eq_get hi
    refine ⟨?_, ?_, ?_, ?_⟩
    · simpa [List.length_set] using hW
    · intro b hb
      rcases List.mem_or_eq_of_mem_set hb with h' | h'
      · exact hcap b h'
      · subst h'
        have hlen := hcap'
        simp only [List.length_append, List.length_singleton]
        omega
    · intro e'
      have hs := sum_map_set_f (List.count e') t.batches i
        (t.batches.get ⟨i, hi⟩ ++ [e]) _ hget
      have hc := hcount e'
      rw [hq] at hc
      rw [List.count_append, List.count_singleton'] at hs
      rw [List.count_cons] at hc
      dsimp only
      by_cases he : e = e'
      · rw [if_pos he] at hs
        rw [if_pos (by simp [he])] at hc
        omega
      · rw [if_neg he] at hs
        rw [if_neg (by simp [he])] at hc
        omega
    · have hs := sum_map_set_f List.length t.batches i
        (t.batches.get ⟨i, hi⟩ ++ [e]) _ hget
      have ht := htot
      rw [hq] at ht
      dsimp only
      simp at hs ht ⊢
      omega

/-- Claim-phase invariant, established by induction along the dequeue
steps: the worker count is fixed, batches respect the capacity, every
entity's total multiplicity across queue and batches matches the initial
queue, and no entity is created or lost. -/
theorem claim_inv (N W C : Nat) (s : ClaimState)
    (h : Relation.ReflTransGen (ClaimStep C) (initClaim N W) s) :
    s.batches.length = W ∧
    (∀ b ∈ s.batches, b.length ≤ C) ∧
    (∀ e, s.queue.count e + (s.batches.map (List.count e)).sum
        = (List.range N).count e) ∧
    s.queue.length + (s.batches.map List.length).sum = N := by
  induction h with
  | refl =>
    refine ⟨by simp [initClaim], ?_, ?_, ?_⟩
    · intro b hb
      have hb' : b ∈ List.replicate W ([] : List Nat) := by
        simpa [initClaim] using hb
      rw [List.eq_of_mem_replicate hb']
      exact Nat.zero_le C
    · intro e
      simp [initClaim]
    · simp [initClaim]
  | tail hsteps hstep ih =>
    obtain ⟨hW, hcap, hcount, htot⟩ := ih
    exact claim_step_inv N W C _ _ hstep hW hcap hcount htot

/-- A finished claim phase leaves either an empty queue or only full
batches. -/
theorem claimDone_cases (C : Nat) (s : ClaimState) (hdone : ClaimDone C s) :
    s.queue = [] ∨
      ∀ (i : Nat) (hi : i < s.batches.length),
        C ≤ (s.batches.get ⟨i, hi⟩).length := by
  by_cases hq : s.queue = []
  · exact Or.inl hq
  · refine Or.inr ?_
    intro i hi
    by_contra hlt
    push_neg at hlt
    obtain ⟨e, q, hq'⟩ : ∃ e q, s.queue = e :: q := by
      cases hque : s.queue with
      | nil => exact absurd hque hq
      | cons e q => exact ⟨e, q, rfl⟩
    exact hdone _ (ClaimStep.dequeue s e q i hi hq' hlt)

/-!  # Claim C4 — exhaustive, exclusive claiming up to capacity -/

/-- C4: in any completed claim phase reached from `N` enqueued entities
and `W` workers with capacity `C` under mutually exclusive dequeues:
no entity is ever claimed by more than one worker (its multiplicity across
all batches is at most one); if `N ≤ W·C` every entity is claimed by
exactly one worker; and if `N > W·C` exactly `N − W·C` entities remain on
the queue, none of which appears in any worker's batch — so they are never
simulated (workers only simulate their claimed batches). -/
theorem c4_claim_partition (N W C : Nat) (s : ClaimState)
    (hreach : Relation.ReflTransGen (ClaimStep C) (initClaim N W) s)
    (hdone : ClaimDone C s) :
    (∀ e, (s.batches.map (List.count e)).sum ≤ 1) ∧
    (N ≤ W * C → ∀ e, e < N → (s.batches.map (List.count e)).sum = 1) ∧
    (W * C < N → s.queue.length = N - W * C ∧
      ∀ e ∈ s.queue, ∀ b ∈ s.batches, e ∉ b) := by
  obtain ⟨hW, hcap, hcount, htot⟩ := claim_inv N W C s hreach
  have hrc : ∀ e, (List.range N).count e = if e < N then 1 else 0 := by
    intro e
    by_cases he : e < N
    · rw [if_pos he]
      exact List.count_eq_one_of_mem (List.nodup_range N) (List.mem_range.mpr he)
    · rw [if_neg he]
      exact List.count_eq_zero.mpr (fun hmem => he (List.mem_range.mp hmem))
  have hrc_le : ∀ e, (List.range N).count e ≤ 1 := by
    intro e
    rw [hrc e]
    by_cases he : e < N
    · rw [if_pos he]
    · simp [he]
  have hfull_sum :
      (∀ (i : Nat) (hi : i < s.batches.length),
          C ≤ (s.batches.get ⟨i, hi⟩).length) →
        (s.batches.map List.length).sum = W * C := by
    intro hfullI
    have hfull : ∀ b ∈ s.batches, b.length = C := by
      intro b hb
      obtain ⟨⟨i, hi⟩, hg⟩ := List.mem_iff_get.mp hb
      have h1 := hfullI i hi
      rw [hg] at h1
      exact le_antisymm (hcap b hb) h1
    rw [sum_len_eq s.batches C hfull, hW]
  refine ⟨?_, ?_, ?_⟩
  · intro e
    have h1 := hcount e
    have h2 := hrc_le e
    omega
  · intro hNWC e he
    have hqnil : s.queue = [] := by
      rcases claimDone_cases C s hdone with hq | hfullI
      · exact hq
      · have hsum := hfull_sum hfullI
        rw [hsum] at htot
        have : s.queue.length = 0 := by
          generalize W * C = P at htot hNWC
          omega
        exact List.length_eq_zero.mp this
    have h1 := hcount e
    rw [hqnil] at h1
    rw [hrc e, if_pos he] at h1
    simpa using h1
  · intro hWCN
    have hfullI : ∀ (i : Nat) (hi : i < s.batches.length),
        C ≤ (s.batches.get ⟨i, hi⟩).length := by
      rcases claimDone_cases C s hdone with hq | hfullI
      · exfalso
        rw [hq] at htot
        simp at htot
        have hle := sum_len_le s.batches C hcap
        rw [hW] at hle
        generalize W * C = P at hle hWCN
        omega
      · exact hfullI
    have hsum := hfull_sum hfullI
    rw [hsum] at htot
    constructor
    · generalize W * C = P at htot hWCN
      omega
    · intro e he b hb
      have hqc : 0 < s.queue.count e := List.count_pos_iff.mpr he
      have h1 := hcount e
      have h2 := hrc_le e
      have hbc : (s.batches.map (List.count e)).sum = 0 := by omega
      have hmem0 : List.count e b = 0 := by
        have hin : List.count e b ∈ s.batches.map (List.count e) :=
          List.mem_map_of_mem _ hb
        exact (List.sum_eq_zero_iff.mp hbc) _ hin
      exact List.count_eq_zero.mp hmem0

/-- C4 witness: two entities, one worker of capacity one — the reachable
terminal state leaves entity 1 unclaimed: exactly `N − W·C = 1` entity on
the queue and no double-claim. -/
theorem c4_claim_partition_witness :
    (∀ e, ((⟨[1], [[0]]⟩ : ClaimState).batches.map (List.count e)).sum ≤ 1) ∧
    (2 ≤ 1 * 1 → ∀ e, e < 2 →
      ((⟨[1], [[0]]⟩ : ClaimState).batches.map (List.count e)).sum = 1) ∧
    (1 * 1 < 2 → (⟨[1], [[0]]⟩ : ClaimState).queue.length = 2 - 1 * 1 ∧
      ∀ e ∈ (⟨[1], [[0]]⟩ : ClaimState).queue,
        ∀ b ∈ (⟨[1], [[0]]⟩ : ClaimState).batches, e ∉ b) := by
  have hstep : ClaimStep 1 (initClaim 2 1) ⟨[1], [[0]]⟩ :=
    ClaimStep.dequeue (initClaim 2 1) 0 [1] 0 (by decide) rfl (by decide)
  have hdone : ClaimDone 1 ⟨[1], [[0]]⟩ := by
    intro s' h
    cases h with
    | dequeue e q i hi hq hcap =>
      have hi0 : i = 0 := by
        have := hi
        simp at this
        omega
      subst hi0
      have hget0 :
          (({ queue := [1], batches := [[0]] } : ClaimState).batches.get ⟨0, hi⟩) = [0] := rfl
      rw [hget0] at hcap
      exact absurd hcap (by decide)
  exact c4_claim_partition 2 1 1 ⟨[1], [[0]]⟩
    (Relation.ReflTransGen.single hstep) hdone

/-!  # Round-scheduler lemmas -/

theorem visit_skip (b : BoatSimulationState) (now : Nat)
    (h : b.has_next_message = false) :
    visit b now = (.skip b.unique_boat_id, b, now) := by
  simp [visit, h]

theorem visit_event_id (b : BoatSimulationState) (now : Nat) :
    eventId (visit b now).1 = b.unique_boat_id := by
  cases hnb : b.has_next_message with
  | false =>
    rw [visit_skip b now hnb]
    rfl
  | true =>
    obtain ⟨row0, hrow, heq⟩ := BoatSimulationState.get_next_some b
      (fmtTime (gateTime b now)) (gateTime b now) hnb
    simp [visit, hnb, heq, eventId]

theorem visit_uid (b : BoatSimulationState) (now : Nat) :
    ((visit b now).2.1).unique_boat_id = b.unique_boat_id := by
  cases hnb : b.has_next_message with
  | false => rw [visit_skip b now hnb]
  | true =>
    obtain ⟨row0, hrow, heq⟩ := BoatSimulationState.get_next_some b
      (fmtTime (gateTime b now)) (gateTime b now) hnb
    simp [visit, hnb, heq]

theorem visit_sent (b : BoatSimulationState) (now : Nat) :
    ((visit b now).2.1).sent_count =
      b.sent_count + (if isEmit (visit b now).1 then 1 else 0) := by
  cases hnb : b.has_next_message with
  | false =>
    rw [visit_skip b now hnb]
    simp [isEmit]
  | true =>
    obtain ⟨row0, hrow, heq⟩ := BoatSimulationState.get_next_some b
      (fmtTime (gateTime b now)) (gateTime b now) hnb
    simp [visit, hnb, heq, isEmit]

theorem runRound_nil (now : Nat) : runRound [] now = ([], [], now) := rfl

theorem runRound_cons (b : BoatSimulationState) (bs : List BoatSimulationState)
    (now : Nat) :
    runRound (b :: bs) now =
      ((visit b now).1 :: (runRound bs (visit b now).2.2).1,
       (visit b now).2.1 :: (runRound bs (visit b now).2.2).2.1,
       (runRound bs (visit b now).2.2).2.2) := by
  rcases hv : visit b now with ⟨e, b', n'⟩
  rcases hr : runRound bs n' with ⟨es, bs', n''⟩
  simp [runRound, hv, hr]

theorem runRounds_zero (bs : List BoatSimulationState) (now : Nat) :
    runRounds bs now 0 = ([], bs, now) := rfl

theorem runRounds_succ (bs : List BoatSimulationState) (now n : Nat) :
    runRounds bs now (n + 1) =
      ((runRound bs now).1 ::
        (runRounds (runRound bs now).2.1 (runRound bs now).2.2 n).1,
       (runRounds (runRound bs now).2.1 (runRound bs now).2.2 n).2.1,
       (runRounds (runRound bs now).2.1 (runRound bs now).2.2 n).2.2) := by
  rcases hr : runRound bs now with ⟨es, bs', n'⟩
  rcases hs : runRounds bs' n' n with ⟨tr, bs'', n''⟩
  simp [runRounds, hr, hs]

theorem runRounds_trace_length (n : Nat) :
    ∀ (bs : List BoatSimulationState) (now : Nat),
      ((runRounds bs now n).1).length = n := by
  induction n with
  | zero =>
    intro bs now
    rfl
  | succ n ih =>
    intro bs now
    rw [runRounds_succ]
    simp [ih]

theorem runRound_events_length (bs : List BoatSimulationState) :
    ∀ (now : Nat), ((runRound bs now).1).length = bs.length := by
  induction bs with
  | nil =>
    intro now
    rfl
  | cons b rest ih =>
    intro now
    rw [runRound_cons]
    simp [ih]

theorem runRound_boats_length (bs : List BoatSimulationState) :
    ∀ (now : Nat), ((runRound bs now).2.1).length = bs.length := by
  induction bs with
  | nil =>
    intro now
    rfl
  | cons b rest ih =>
    intro now
    rw [runRound_cons]
    simp [ih]

theorem runRounds_round_length (n : Nat) :
    ∀ (bs : List BoatSimulationState) (now : Nat),
      ∀ round ∈ (runRounds bs now n).1, round.length = bs.length := by
  induction n with
  | zero =>
    intro bs now round hr
    cases hr
  | succ n ih =>
    intro bs now round hr
    rw [runRounds_succ] at hr
    rcases List.mem_cons.mp hr with h | h
    · rw [h]
      exact runRound_events_length bs now
    · have := ih (runRound bs now).2.1 (runRound bs now).2.2 round h
      rw [this]
      exact runRound_boats_length bs now

theorem runRound_event_id (bs : List BoatSimulationState) :
    ∀ (now : Nat) (j : Nat) (e : VisitEvent),
      ((runRound bs now).1).get? j = some e →
      ∃ b0, bs.get? j = some b0 ∧ eventId e = b0.unique_boat_id := by
  induction bs with
  | nil =>
    intro now j e he
    cases he
  | cons b rest ih =>
    intro now j e he
    rw [runRound_cons] at he
    cases j with
    | zero =>
      injection he with he'
      exact ⟨b, rfl, he' ▸ visit_event_id b now⟩
    | succ j => exact ih (visit b now).2.2 j e he

theorem runRound_boat_id (bs : List BoatSimulationState) :
    ∀ (now : Nat) (j : Nat) (b' : BoatSimulationState),
      ((runRound bs now).2.1).get? j = some b' →
      ∃ b0, bs.get? j = some b0 ∧ b'.unique_boat_id = b0.unique_boat_id := by
  induction bs with
  | nil =>
    intro now j b' hb
    cases hb
  | cons b rest ih =>
    intro now j b' hb
    rw [runRound_cons] at hb
    cases j with
    | zero =>
      injection hb with hb'
      exact ⟨b, rfl, hb' ▸ visit_uid b now⟩
    | succ j => exact ih (visit b now).2.2 j b' hb

theorem runRounds_event_id (n : Nat) :
    ∀ (bs : List BoatSimulationState) (now : Nat) (r : Nat)
      (round : List VisitEvent) (j : Nat) (e : VisitEvent),
      ((runRounds bs now n).1).get? r = some round →
      round.get? j = some e →
      ∃ b0, bs.get? j = some b0 ∧ eventId e = b0.unique_boat_id := by
  induction n with
  | zero =>
    intro bs now r round j e hr
    cases hr
  | succ n ih =>
    intro bs now r round j e hr he
    rw [runRounds_succ] at hr
    cases r with
    | zero =>
      injection hr with hr'
      subst hr'
      exact runRound_event_id bs now j e he
    | succ r =>
      obtain ⟨b0', hb0', hid⟩ :=
        ih (runRound bs now).2.1 (runRound bs now).2.2 r round j e hr he
      obtain ⟨b0, hb0, huid⟩ := runRound_boat_id bs now j b0' hb0'
      exact ⟨b0, hb0, hid.trans huid⟩

theorem runRound_skip (bs : List BoatSimulationState) :
    ∀ (now : Nat) (j : Nat) (bj : BoatSimulationState),
      bs.get? j = some bj → bj.has_next_message = false →
      ((runRound bs now).1).get? j = some (.skip bj.unique_boat_id) ∧
        ((runRound bs now).2.1).get? j = some bj := by
  induction bs with
  | nil =>
    intro now j bj hj
    cases hj
  | cons b rest ih =>
    intro now j bj hj hfalse
    rw [runRound_cons]
    cases j with
    | zero =>
      injection hj with hj'
      subst hj'
      rw [visit_skip b now hfalse]
      exact ⟨rfl, rfl⟩
    | succ j => exact ih (visit b now).2.2 j bj hj hfalse

theorem runRounds_skip (n : Nat) :
    ∀ (bs : List BoatSimulationState) (now : Nat) (j : Nat)
      (bj : BoatSimulationState),
      bs.get? j = some bj → bj.has_next_message = false →
      (∀ (d : Nat) (round : List VisitEvent),
        ((runRounds bs now n).1).get? d = some round →
        round.get? j = some (.skip bj.unique_boat_id)) ∧
      ((runRounds bs now n).2.1).get? j = some bj := by
  induction n with
  | zero =>
    intro bs now j bj hj hfalse
    exact ⟨fun d round hd => absurd hd (by simp [runRounds_zero]), hj⟩
  | succ n ih =>
    intro bs now j bj hj hfalse
    have hr := runRound_skip bs now j bj hj hfalse
    have hrec := ih (runRound bs now).2.1 (runRound bs now).2.2 j bj hr.2 hfalse
    constructor
    · intro d round hd
      rw [runRounds_succ] at hd
      cases d with
      | zero =>
        injection hd with hd'
        subst hd'
        exact hr.1
      | succ d => exact hrec.1 d round hd
    · rw [runRounds_succ]
      exact hrec.2

theorem runRounds_add (m : Nat) :
    ∀ (k : Nat) (bs : List BoatSimulationState) (now : Nat),
      (runRounds bs now (m + k)).1 =
        (runRounds bs now m).1 ++
          (runRounds (runRounds bs now m).2.1 (runRounds bs now m).2.2 k).1 ∧
      (runRounds bs now (m + k)).2 =
        (runRounds (runRounds bs now m).2.1 (runRounds bs now m).2.2 k).2 := by
  induction m with
  | zero =>
    intro k bs now
    simp [runRounds_zero]
  | succ m ih =>
    intro k bs now
    have hs : m + 1 + k = (m + k) + 1 := by omega
    rw [hs, runRounds_succ, runRounds_succ bs now m]
    have := ih k (runRound bs now).2.1 (runRound bs now).2.2
    rw [this.1, this.2]
    simp

/-!  # Claim C5 — lock-step rounds over the claimed batch -/

/-- C5: the worker executes exactly `max(len(rows) for e in B)` rounds
(that bound dominates every boat's row count and is attained in a
non-empty batch); each round holds exactly one visit per claimed boat, in
claim order (the `j`-th event of every round belongs to the `j`-th claimed
boat); a boat with no pending rows is skipped by `continue` — no rate-gate
wait (the clock is untouched), no emission, no state change — and once a
boat is exhausted at the start of round `r` it is skipped in every later
round. -/
theorem c5_round_scheduler (bs : List BoatSimulationState) (now : Nat) :
    ((workerRun bs now).1.length = maxRounds bs) ∧
    (∀ b ∈ bs, b.data_lines.length ≤ maxRounds bs) ∧
    (bs = [] ∨ ∃ b ∈ bs, maxRounds bs = b.data_lines.length) ∧
    (∀ round ∈ (workerRun bs now).1, round.length = bs.length) ∧
    (∀ (r : Nat) (round : List VisitEvent) (j : Nat) (e : VisitEvent)
      (b0 : BoatSimulationState),
      (workerRun bs now).1.get? r = some round → round.get? j = some e →
      bs.get? j = some b0 → eventId e = b0.unique_boat_id) ∧
    (∀ (b' : BoatSimulationState) (now' : Nat), b'.has_next_message = false →
      visit b' now' = (.skip b'.unique_boat_id, b', now')) ∧
    (∀ (r r' j : Nat) (bj : BoatSimulationState),
      ((runRounds bs now r).2.1).get? j = some bj →
      bj.has_next_message = false → r ≤ r' → r' < maxRounds bs →
      ∃ round, (workerRun bs now).1.get? r' = some round ∧
        round.get? j = some (.skip bj.unique_boat_id)) := by
  refine ⟨?_, ?_, ?_, ?_, ?_, ?_, ?_⟩
  · exact runRounds_trace_length (maxRounds bs) bs now
  · intro b hb
    exact maxRounds_ge bs b hb
  · by_cases hbs : bs = []
    · exact Or.inl hbs
    · exact Or.inr (maxRounds_attained bs hbs)
  · exact runRounds_round_length (maxRounds bs) bs now
  · intro r round j e b0 hr he hb0
    obtain ⟨b0', hb0', hid⟩ :=
      runRounds_event_id (maxRounds bs) bs now r round j e hr he
    rw [hb0'] at hb0
    injection hb0 with hh
    rw [hid, hh]
  · intro b' now' hfalse
    exact visit_skip b' now' hfalse
  · intro r r' j bj hbj hfalse hrr hr'
    have hm : maxRounds bs = r + (maxRounds bs - r) := by omega
    have hadd := runRounds_add r (maxRounds bs - r) bs now
    have hskip := runRounds_skip (maxRounds bs - r)
      (runRounds bs now r).2.1 (runRounds bs now r).2.2 j bj hbj hfalse
    have hlen1 : ((runRounds bs now r).1).length = r :=
      runRounds_trace_length r bs now
    have hlen2 : ((runRounds (runRounds bs now r).2.1
        (runRounds bs now r).2.2 (maxRounds bs - r)).1).length
          = maxRounds bs - r :=
      runRounds_trace_length _ _ _
    have htr : (workerRun bs now).1 =
        (runRounds bs now r).1 ++
          (runRounds (runRounds bs now r).2.1
            (runRounds bs now r).2.2 (maxRounds bs - r)).1 := by
      have h1 := hadd.1
      rw [← hm] at h1
      exact h1
    obtain ⟨round, hround⟩ : ∃ round,
        ((runRounds (runRounds bs now r).2.1
          (runRounds bs now r).2.2 (maxRounds bs - r)).1).get? (r' - r)
            = some round := by
      have hlt : r' - r <
          ((runRounds (runRounds bs now r).2.1
            (runRounds bs now r).2.2 (maxRounds bs - r)).1).length := by
        rw [hlen2]
        omega
      exact ⟨_, List.get?_eq_get hlt⟩
    refine ⟨round, ?_, hskip.1 (r' - r) round hround⟩
    rw [htr, List.get?_append_right (by rw [hlen1]; omega), hlen1]
    exact hround

/-- C5 witness: a one-row boat and a two-row boat on one worker — two
rounds total, and in the second round the exhausted first boat's visit is
the skip event. -/
theorem c5_round_scheduler_witness :
    (workerRun [oneRowBoat, twoRowBoat] 1000).1.length = 2 ∧
    (∃ round, (workerRun [oneRowBoat, twoRowBoat] 1000).1.get? 1 = some round ∧
      round.get? 0 = some (VisitEvent.skip "BOAT_001")) := by
  have h := c5_round_scheduler [oneRowBoat, twoRowBoat] 1000
  have hmr : maxRounds [oneRowBoat, twoRowBoat] = 2 := by decide
  constructor
  · have h1 := h.1
    rw [hmr] at h1
    exact h1
  · have h7 := h.2.2.2.2.2.2
    have hbj : ((runRounds [oneRowBoat, twoRowBoat] 1000 1).2.1).get? 0 =
        some { boat_id := 1, unique_boat_id := "BOAT_001", start_row := 0,
               end_row := 1, data_lines := [demoRow], current_index := 1,
               sent_count := 1, last_send_time := 1000, completed := true } := by
      decide
    obtain ⟨round, hr1, hr2⟩ :=
      h7 1 1 0 _ hbj (by decide) (le_refl 1) (by rw [hmr]; omega)
    exact ⟨round, hr1, hr2⟩

/-!  # Claim C8 — aggregator total equals sum of per-entity counts -/

theorem emitCount_cons (e : VisitEvent) (es : List VisitEvent) :
    emitCount (e :: es) = (if isEmit e then 1 else 0) + emitCount es := by
  cases he : isEmit e <;> simp [emitCount, List.filter_cons, he] <;> omega

theorem runRound_sent (bs : List BoatSimulationState) :
    ∀ (now : Nat),
      (((runRound bs now).2.1).map (fun b => b.sent_count)).sum =
        (bs.map (fun b => b.sent_count)).sum + emitCount (runRound bs now).1 := by
  induction bs with
  | nil =>
    intro now
    simp [runRound_nil, emitCount]
  | cons b rest ih =>
    intro now
    rw [runRound_cons]
    simp only [List.map_cons, List.sum_cons, emitCount_cons]
    have h1 := visit_sent b now
    have h2 := ih (visit b now).2.2
    cases he : isEmit (visit b now).1 <;> simp only [he, if_true, if_false] at h1 ⊢ <;> omega

theorem runRounds_sent (n : Nat) :
    ∀ (bs : List BoatSimulationState) (now : Nat),
      (((runRounds bs now n).2.1).map (fun b => b.sent_count)).sum =
        (bs.map (fun b => b.sent_count)).sum +
          totalSent (runRounds bs now n).1 := by
  induction n with
  | zero =>
    intro bs now
    simp [runRounds_zero, totalSent]
  | succ n ih =>
    intro bs now
    rw [runRounds_succ]
    simp only [totalSent, List.map_cons, List.sum_cons]
    have h1 := runRound_sent bs now
    have h2 := ih (runRound bs now).2.1 (runRound bs now).2.2
    simp only [totalSent] at h2
    omega

theorem simulateAll_eq (batches : List (List BoatSimulationState)) (now : Nat) :
    simulateAll batches now +
        (batches.map (fun bs => (bs.map (fun b => b.sent_count)).sum)).sum =
      (batches.map (fun bs =>
        (((workerRun bs now).2.1).map (fun b => b.sent_count)).sum)).sum := by
  induction batches with
  | nil => rfl
  | cons bs rest ih =>
    simp only [simulateAll, List.map_cons, List.sum_cons, workerRun] at ih ⊢
    have h1 := runRounds_sent (maxRounds bs) bs now
    omega

/-- C8: for a run of any batch partition in which every entity starts
with a zero emitted count, the aggregator's total (the sum over workers of
each worker's returned `total_messages_sent`) equals the sum over all
simulated entities of the entity's own `sent_count` field at the end of
the run. -/
theorem c8_aggregate_total (batches : List (List BoatSimulationState)) (now : Nat)
    (h0 : ∀ bs ∈ batches, ∀ b ∈ bs, b.sent_count = 0) :
    simulateAll batches now =
      (batches.map (fun bs =>
        (((workerRun bs now).2.1).map (fun b => b.sent_count)).sum)).sum := by
  have h := simulateAll_eq batches now
  have hz : (batches.map (fun bs => (bs.map (fun b => b.sent_count)).sum)).sum = 0 := by
    apply List.sum_eq_zero
    intro x hx
    obtain ⟨bs, hbs, rfl⟩ := List.mem_map.mp hx
    apply List.sum_eq_zero
    intro y hy
    obtain ⟨b, hb, rfl⟩ := List.mem_map.mp hy
    exact h0 bs hbs b hb
  omega

/-- C8 witness: two single-boat workers. -/
theorem c8_aggregate_total_witness :
    simulateAll [[oneRowBoat], [twoRowBoat]] 500 =
      (([[oneRowBoat], [twoRowBoat]] : List (List BoatSimulationState)).map (fun bs =>
        (((workerRun bs 500).2.1).map (fun b => b.sent_count)).sum)).sum :=
  c8_aggregate_total [[oneRowBoat], [twoRowBoat]] 500 (by decide)
